import Mathlib

/-!
Shallow embedding of `src/generator.py` (the pixel-palette generator).

Numeric model: Python's arbitrary-precision integers are `ℤ`, Python's
true division `/` is exact division on `ℚ`, and Python's built-in
`round` is `pyRound` (nearest integer, ties to even).  Python's `%` on
integers with a positive modulus agrees with `Int.emod`, which is the
`%` of `ℤ` used here.  A `ZeroDivisionError` raised by a division by a
zero range channel is made explicit in the `Except`-valued variants of
the palette operations; the pure variants model the calls that return
normally.
-/

/-- Python's built-in `round`: nearest integer, ties go to the even
neighbour (`round(25.5) = 26`, `round(0.5) = 0`). -/
def pyRound (q : ℚ) : ℤ :=
  if q - ⌊q⌋ < 1/2 then ⌊q⌋
  else if 1/2 < q - ⌊q⌋ then ⌊q⌋ + 1
  else if 2 ∣ ⌊q⌋ then ⌊q⌋ else ⌊q⌋ + 1

/-- A canonical (0–255-scale) color: integer (hue, saturation, value)
triple as produced by `hsv_adjust_range` and stored in palette rows. -/
abbrev Color := ℤ × ℤ × ℤ

/-- Canonical black `(0,0,0)`, the filler pixel of `save_as_image`. -/
def black : Color := (0, 0, 0)

/-- `mix` from generator.py: `a * (1-ratio_b) + b * ratio_b`. -/
def mix (a b ratio_b : ℚ) : ℚ := a * (1 - ratio_b) + b * ratio_b

/-- `mix_colors` from generator.py; in this program it is only applied to
canonical (integer) colors, so its arguments are `Color`s. -/
def mix_colors (c1 c2 : Color) (ratio_c2 : ℚ) : Color :=
  (pyRound (mix (c1.1 : ℚ) (c2.1 : ℚ) ratio_c2),
   pyRound (mix (c1.2.1 : ℚ) (c2.2.1 : ℚ) ratio_c2),
   pyRound (mix (c1.2.2 : ℚ) (c2.2.2 : ℚ) ratio_c2))

/-- `hsv_adjust_range` from generator.py:
`round(255 * channel / range_channel)` on each channel. -/
def hsv_adjust_range (color current_range : ℚ × ℚ × ℚ) : Color :=
  (pyRound (255 * color.1 / current_range.1),
   pyRound (255 * color.2.1 / current_range.2.1),
   pyRound (255 * color.2.2 / current_range.2.2))

/-- Python's `range(a, b)` over integers, as the list `[a, a+1, ..., b-1]`
(empty when `b ≤ a`). -/
def pyRange (a b : ℤ) : List ℤ :=
  (List.range (b - a).toNat).map fun (k : ℕ) => a + (k : ℤ)

/-- The row built by `PixelPalette.add_gradient` from the two canonical
endpoints: the first endpoint, then `number_in_between` mixed colors whose
hue is reduced `% 255`, then the second endpoint.  When `hue_ascending` is
false the first endpoint's hue is shifted by `+255` for the mixing only
(the stored first element is the unshifted endpoint). -/
def gradient_row (color1 color2 : Color) (number_in_between : ℤ)
    (hue_ascending : Bool) : List Color :=
  let c1 := if hue_ascending then color1
            else (color1.1 + 255, color1.2.1, color1.2.2)
  color1 :: ((List.range number_in_between.toNat).map fun (i : ℕ) =>
      let c := mix_colors c1 color2
        (((i : ℚ) + 1) / ((number_in_between : ℚ) + 1))
      (c.1 % 255, c.2.1, c.2.2)) ++ [color2]

/-- The row built by `PixelPalette.add_shades` from the canonical base and
shift: one color `base + shift * i` for each `i` in
`range(-number_down, number_up + 1)`. -/
def shades_row (base_color shift : Color) (number_down number_up : ℤ) :
    List Color :=
  (pyRange (-number_down) (number_up + 1)).map fun i =>
    (base_color.1 + shift.1 * i,
     base_color.2.1 + shift.2.1 * i,
     base_color.2.2 + shift.2.2 * i)

/-- The `PixelPalette` state: the configured `hsv_range` and the
accumulated `rows`. -/
structure PixelPalette where
  hsv_range : ℚ × ℚ × ℚ
  rows : List (List Color)
deriving DecidableEq

/-- `PixelPalette.__init__`: stores the range and starts with no rows.
(The Python default argument is `(100, 100, 100)`.)  No validation is
performed. -/
def PixelPalette.init (hsv_range : ℚ × ℚ × ℚ) : PixelPalette :=
  { hsv_range := hsv_range, rows := [] }

/-- `PixelPalette.add_gradient` on the non-raising path: converts both
endpoints with `hsv_adjust_range` and appends the gradient row. -/
def PixelPalette.add_gradient (p : PixelPalette) (color1 color2 : ℚ × ℚ × ℚ)
    (number_in_between : ℤ) (hue_ascending : Bool) : PixelPalette :=
  { p with rows := p.rows ++
      [gradient_row (hsv_adjust_range color1 p.hsv_range)
        (hsv_adjust_range color2 p.hsv_range) number_in_between hue_ascending] }

/-- `PixelPalette.add_shades` on the non-raising path: converts base and
shift with `hsv_adjust_range` and appends the shades row. -/
def PixelPalette.add_shades (p : PixelPalette) (base_color shift : ℚ × ℚ × ℚ)
    (number_down number_up : ℤ) : PixelPalette :=
  { p with rows := p.rows ++
      [shades_row (hsv_adjust_range base_color p.hsv_range)
        (hsv_adjust_range shift p.hsv_range) number_down number_up] }

/-- The Python exceptions the modelled fragment can raise.
(`invalidArgumentError` is the error the spec asks for on negative counts;
the code never raises it.) -/
inductive PyErr where
  | zeroDivisionError
  | invalidArgumentError
deriving DecidableEq

/-- `hsv_adjust_range` with Python's `ZeroDivisionError` explicit: a zero
range channel raises; otherwise it returns the converted color. -/
def hsv_adjust_rangeE (color current_range : ℚ × ℚ × ℚ) :
    Except PyErr Color :=
  if current_range.1 = 0 ∨ current_range.2.1 = 0 ∨ current_range.2.2 = 0 then
    .error .zeroDivisionError
  else .ok (hsv_adjust_range color current_range)

/-- `PixelPalette.add_gradient` with exceptions explicit.  The two
conversions run first (color1's first); `self.rows.append` is the final
statement, so an exception yields no updated palette at all. -/
def PixelPalette.add_gradientE (p : PixelPalette) (color1 color2 : ℚ × ℚ × ℚ)
    (number_in_between : ℤ) (hue_ascending : Bool) :
    Except PyErr PixelPalette :=
  match hsv_adjust_rangeE color1 p.hsv_range,
        hsv_adjust_rangeE color2 p.hsv_range with
  | .error e, _ => .error e
  | .ok _, .error e => .error e
  | .ok c1, .ok c2 => .ok { p with rows := p.rows ++
      [gradient_row c1 c2 number_in_between hue_ascending] }

/-- `PixelPalette.add_shades` with exceptions explicit; the loop and the
final append raise nothing, so only the two conversions can fail. -/
def PixelPalette.add_shadesE (p : PixelPalette) (base_color shift : ℚ × ℚ × ℚ)
    (number_down number_up : ℤ) : Except PyErr PixelPalette :=
  match hsv_adjust_rangeE base_color p.hsv_range,
        hsv_adjust_rangeE shift p.hsv_range with
  | .error e, _ => .error e
  | .ok _, .error e => .error e
  | .ok b, .ok s => .ok { p with rows := p.rows ++
      [shades_row b s number_down number_up] }

/-- The width computed by `save_as_image`: running maximum of the row
lengths, starting from 0. -/
def gridWidth (rows : List (List Color)) : ℕ :=
  rows.foldl (fun width row => max width row.length) 0

/-- One grid row of the exported image:
`row[i] if i < len(row) else (0,0,0)` for `i` in `range(width)`. -/
def rowPixels (width : ℕ) (row : List Color) : List Color :=
  (List.range width).map fun i => row.getD i black

/-- The flat pixel sequence for a given width, row-major. -/
def pixelsWithWidth (width : ℕ) (rows : List (List Color)) : List Color :=
  (rows.map (rowPixels width)).flatten

/-- The flat pixel sequence `save_as_image` hands to the image writer. -/
def save_pixels (rows : List (List Color)) : List Color :=
  pixelsWithWidth (gridWidth rows) rows

/-- `PixelPalette.save_as_image`: returns the grid size, the pixel data
handed to the image writer, and the palette after the call.  The method
only reads `self.rows` and assigns no attribute of `self`, so the
post-state is the palette itself. -/
def PixelPalette.save_as_image (p : PixelPalette) :
    ((ℕ × ℕ) × List Color) × PixelPalette :=
  (((gridWidth p.rows, p.rows.length), save_pixels p.rows), p)

/-! ### Facts about `pyRound` -/

theorem pyRound_cases (q : ℚ) : pyRound q = ⌊q⌋ ∨ pyRound q = ⌊q⌋ + 1 := by
  unfold pyRound
  split_ifs <;> simp

theorem floor_le_pyRound (q : ℚ) : ⌊q⌋ ≤ pyRound q := by
  rcases pyRound_cases q with h | h <;> omega

theorem pyRound_le_floor_add_one (q : ℚ) : pyRound q ≤ ⌊q⌋ + 1 := by
  rcases pyRound_cases q with h | h <;> omega

theorem pyRound_intCast (n : ℤ) : pyRound (n : ℚ) = n := by
  unfold pyRound
  rw [Int.floor_intCast]
  have h : (n : ℚ) - n = 0 := by ring
  rw [h]
  norm_num

theorem pyRound_mono {a b : ℚ} (hab : a ≤ b) : pyRound a ≤ pyRound b := by
  have hf : ⌊a⌋ ≤ ⌊b⌋ := Int.floor_mono hab
  rcases lt_or_eq_of_le hf with hlt | heq
  · calc pyRound a ≤ ⌊a⌋ + 1 := pyRound_le_floor_add_one a
      _ ≤ ⌊b⌋ := by omega
      _ ≤ pyRound b := floor_le_pyRound b
  · unfold pyRound
    rw [← heq]
    split_ifs with h1 h2 h3 h4 h5 h6 h7 h8 h9 <;> try omega
    all_goals
      exfalso
      push_neg at *
      try linarith

/-- Channel selector on canonical colors: 0 = hue, 1 = saturation,
2 = value. -/
def chan (ch : ℕ) (c : Color) : ℤ :=
  if ch = 1 then c.2.1 else if ch = 2 then c.2.2 else c.1

/-! ### Structure of the generated rows -/

theorem getD_cons_add_one {α : Type} (a : α) (l : List α) (k : ℕ) (d : α) :
    (a :: l).getD (k + 1) d = l.getD k d := by
  simp

theorem getD_append_self {α : Type} (l : List α) (x d : α) :
    (l ++ [x]).getD l.length d = x := by
  rw [List.getD_append_right _ _ _ _ (le_refl _)]
  simp

theorem gradient_row_length (c1 c2 : Color) (n : ℤ) (asc : Bool) :
    (gradient_row c1 c2 n asc).length = n.toNat + 2 := by
  simp [gradient_row]

theorem gradient_row_getD_zero (c1 c2 : Color) (n : ℤ) (asc : Bool) :
    (gradient_row c1 c2 n asc).getD 0 black = c1 := by
  simp [gradient_row]

theorem gradient_row_getD_last (c1 c2 : Color) (n : ℤ) (asc : Bool) :
    (gradient_row c1 c2 n asc).getD (n.toNat + 1) black = c2 := by
  simp only [gradient_row]
  rw [List.getD_append_right _ _ _ _ (by simp)]
  simp

theorem gradient_row_getD_interior (c1 c2 : Color) (n : ℤ) (asc : Bool)
    (i : ℕ) (hi : i < n.toNat) :
    (gradient_row c1 c2 n asc).getD (i + 1) black =
      (let c1s := if asc then c1 else (c1.1 + 255, c1.2.1, c1.2.2)
       let c := mix_colors c1s c2 (((i : ℚ) + 1) / ((n : ℚ) + 1))
       (c.1 % 255, c.2.1, c.2.2)) := by
  simp only [gradient_row]
  rw [List.getD_append _ _ _ _ (by simp; omega), getD_cons_add_one,
    List.getD_eq_getElem?_getD]
  simp [List.getElem?_map, List.getElem?_range hi]

theorem pyRange_length (a b : ℤ) : (pyRange a b).length = (b - a).toNat := by
  simp [pyRange]

theorem pyRange_getElem? (a b : ℤ) (k : ℕ) (hk : k < (b - a).toNat) :
    (pyRange a b)[k]? = some (a + k) := by
  unfold pyRange
  simp [List.getElem?_map, List.getElem?_range hk]

theorem shades_row_length (bc s : Color) (d u : ℤ) :
    (shades_row bc s d u).length = (d + u + 1).toNat := by
  simp only [shades_row, List.length_map, pyRange_length]
  omega

theorem shades_row_getD (bc s : Color) (d u : ℤ) (k : ℕ)
    (hk : (k : ℤ) < d + u + 1) :
    (shades_row bc s d u).getD k black =
      (bc.1 + s.1 * (-d + k),
       bc.2.1 + s.2.1 * (-d + k),
       bc.2.2 + s.2.2 * (-d + k)) := by
  unfold shades_row
  rw [List.getD_eq_getElem?_getD, List.getElem?_map,
    pyRange_getElem? _ _ _ (by omega)]
  simp

theorem add_gradient_rows (p : PixelPalette) (c1 c2 : ℚ × ℚ × ℚ) (n : ℤ)
    (asc : Bool) :
    (p.add_gradient c1 c2 n asc).rows = p.rows ++
      [gradient_row (hsv_adjust_range c1 p.hsv_range)
        (hsv_adjust_range c2 p.hsv_range) n asc] := rfl

theorem add_shades_rows (p : PixelPalette) (bc s : ℚ × ℚ × ℚ) (d u : ℤ) :
    (p.add_shades bc s d u).rows = p.rows ++
      [shades_row (hsv_adjust_range bc p.hsv_range)
        (hsv_adjust_range s p.hsv_range) d u] := rfl

/-! ### Structure of the exported pixel grid -/

theorem rowPixels_length (w : ℕ) (row : List Color) :
    (rowPixels w row).length = w := by
  simp [rowPixels]

theorem rowPixels_getD (w : ℕ) (row : List Color) (i : ℕ) (hi : i < w) :
    (rowPixels w row).getD i black = row.getD i black := by
  unfold rowPixels
  rw [List.getD_eq_getElem?_getD]
  simp [List.getElem?_map, List.getElem?_range hi]

theorem pixelsWithWidth_cons (w : ℕ) (r : List Color)
    (rs : List (List Color)) :
    pixelsWithWidth w (r :: rs) = rowPixels w r ++ pixelsWithWidth w rs := by
  simp [pixelsWithWidth]

theorem pixelsWithWidth_length (w : ℕ) (rows : List (List Color)) :
    (pixelsWithWidth w rows).length = w * rows.length := by
  induction rows with
  | nil => simp [pixelsWithWidth]
  | cons r rs ih =>
      rw [pixelsWithWidth_cons, List.length_append, rowPixels_length, ih]
      rw [List.length_cons, Nat.mul_succ]
      omega

theorem pixelsWithWidth_getD (w : ℕ) (rows : List (List Color)) (x y : ℕ)
    (hx : x < w) :
    (pixelsWithWidth w rows).getD (y * w + x) black =
      (rows.getD y []).getD x black := by
  induction rows generalizing y with
  | nil => simp [pixelsWithWidth]
  | cons r rs ih =>
      cases y with
      | zero =>
          rw [pixelsWithWidth_cons,
            List.getD_append _ _ _ _ (by rw [rowPixels_length]; simpa using hx)]
          simpa using rowPixels_getD w r x hx
      | succ y =>
          rw [pixelsWithWidth_cons,
            List.getD_append_right _ _ _ _
              (by rw [rowPixels_length, Nat.succ_mul]; omega),
            rowPixels_length]
          have harith : (y + 1) * w + x - w = y * w + x := by
            rw [Nat.succ_mul]; omega
          rw [harith]
          simpa using ih y

theorem le_foldl_max (rows : List (List Color)) (acc : ℕ) :
    acc ≤ rows.foldl (fun width row => max width row.length) acc := by
  induction rows generalizing acc with
  | nil => simp
  | cons r rs ih =>
      rw [List.foldl_cons]
      exact le_trans (le_max_left _ _) (ih _)

theorem length_le_foldl_max (rows : List (List Color)) (acc : ℕ)
    (row : List Color) (h : row ∈ rows) :
    row.length ≤ rows.foldl (fun width r => max width r.length) acc := by
  induction rows generalizing acc with
  | nil => cases h
  | cons r rs ih =>
      rw [List.foldl_cons]
      rcases List.mem_cons.mp h with rfl | hmem
      · exact le_trans (le_max_right _ _) (le_foldl_max _ _)
      · exact ih _ hmem

theorem foldl_max_cases (rows : List (List Color)) (acc : ℕ) :
    rows.foldl (fun width r => max width r.length) acc = acc ∨
      ∃ row ∈ rows, rows.foldl (fun width r => max width r.length) acc =
        row.length := by
  induction rows generalizing acc with
  | nil => left; rfl
  | cons r rs ih =>
      rw [List.foldl_cons]
      rcases ih (max acc r.length) with h | ⟨row, hm, he⟩
      · rcases le_or_lt r.length acc with hle | hlt
        · left; rw [h, max_eq_left hle]
        · right
          exact ⟨r, List.mem_cons_self _ _, by rw [h, max_eq_right hlt.le]⟩
      · right
        exact ⟨row, List.mem_cons_of_mem _ hm, he⟩

/-! ### Claim theorems -/

/-- C3: for every palette, external base color, shift triple and counts
`d, u ≥ 0`, `add_shades(base, shift, d, u)` appends exactly one row of
length `d + u + 1` containing, for each integer `i` in `[-d, u]` in
increasing order, the color `canonical(base) + canonical(shift) * i`
computed channelwise in exact integer arithmetic (no clamping or
wraparound); the entry at 0-based index `d` is `canonical(base)` and
consecutive entries differ channelwise by exactly `canonical(shift)`. -/
theorem add_shades_spec (p : PixelPalette) (base_color shift : ℚ × ℚ × ℚ)
    (d u : ℤ) (hd : 0 ≤ d) (hu : 0 ≤ u) :
    let bc := hsv_adjust_range base_color p.hsv_range
    let s := hsv_adjust_range shift p.hsv_range
    let row := shades_row bc s d u
    (p.add_shades base_color shift d u).rows = p.rows ++ [row] ∧
    (row.length : ℤ) = d + u + 1 ∧
    (∀ k : ℕ, (k : ℤ) < d + u + 1 →
      row.getD k black =
        (bc.1 + s.1 * (-d + k), bc.2.1 + s.2.1 * (-d + k),
         bc.2.2 + s.2.2 * (-d + k))) ∧
    row.getD d.toNat black = bc ∧
    (∀ k : ℕ, (k : ℤ) + 1 < d + u + 1 →
      row.getD (k + 1) black =
        ((row.getD k black).1 + s.1, (row.getD k black).2.1 + s.2.1,
         (row.getD k black).2.2 + s.2.2)) := by
  intro bc s row
  refine ⟨add_shades_rows p base_color shift d u, ?_, ?_, ?_, ?_⟩
  · rw [shades_row_length]; omega
  · intro k hk
    exact shades_row_getD bc s d u k hk
  · rw [shades_row_getD bc s d u d.toNat (by omega)]
    have h0 : -d + (d.toNat : ℤ) = 0 := by omega
    rw [h0]
    simp
  · intro k hk
    rw [shades_row_getD bc s d u (k + 1) (by push_cast; omega),
      shades_row_getD bc s d u k (by omega)]
    simp only [Prod.mk.injEq]
    refine ⟨?_, ?_, ?_⟩ <;> push_cast <;> ring

theorem add_shades_spec_witness :
    ((PixelPalette.init (100, 100, 100)).add_shades (50, 50, 50)
      (10, 10, 10) 1 1).rows = [] ++
      [shades_row (hsv_adjust_range (50, 50, 50) (100, 100, 100))
        (hsv_adjust_range (10, 10, 10) (100, 100, 100)) 1 1] :=
  (add_shades_spec (PixelPalette.init (100, 100, 100)) (50, 50, 50)
    (10, 10, 10) 1 1 (by decide) (by decide)).1

/-- C4: the external-to-canonical conversion is
`round(255 * value / range_channel)` per channel; for a positive range
channel and a value in `[0, range]` the canonical channel lies in
`[0, 255]`; with range `(360,100,100)` the conversion maps `(48,19,99)` to
`(34,48,252)`, which is the first element of the row appended by
`add_gradient((48,19,99),(16,60,99),2)`. -/
theorem hsv_adjust_range_spec :
    (∀ color current_range : ℚ × ℚ × ℚ,
      hsv_adjust_range color current_range =
        (pyRound (255 * color.1 / current_range.1),
         pyRound (255 * color.2.1 / current_range.2.1),
         pyRound (255 * color.2.2 / current_range.2.2))) ∧
    (∀ r v : ℚ, 0 < r → 0 ≤ v → v ≤ r →
      0 ≤ pyRound (255 * v / r) ∧ pyRound (255 * v / r) ≤ 255) ∧
    hsv_adjust_range (48, 19, 99) (360, 100, 100) = (34, 48, 252) ∧
    (((PixelPalette.init (360, 100, 100)).add_gradient (48, 19, 99)
        (16, 60, 99) 2 true).rows.getD 0 []).getD 0 black =
      (34, 48, 252) := by
  refine ⟨fun _ _ => rfl, ?_, ?_, ?_⟩
  · intro r v hr h0 hvr
    have h1 : (0 : ℚ) ≤ 255 * v / r := by positivity
    have h2 : 255 * v / r ≤ 255 := by
      rw [div_le_iff₀ hr]
      nlinarith
    constructor
    · have hmono := pyRound_mono h1
      rwa [show ((0 : ℚ)) = ((0 : ℤ) : ℚ) by norm_num, pyRound_intCast]
        at hmono
    · have hmono := pyRound_mono h2
      rwa [show ((255 : ℚ)) = ((255 : ℤ) : ℚ) by norm_num, pyRound_intCast]
        at hmono
  · norm_num [hsv_adjust_range, pyRound]
  · rw [add_gradient_rows]
    simp only [PixelPalette.init, List.nil_append, List.getD_cons_zero]
    rw [gradient_row_getD_zero]
    norm_num [hsv_adjust_range, pyRound]

theorem hsv_adjust_range_spec_witness :
    0 ≤ pyRound (255 * 50 / 100 : ℚ) ∧ pyRound (255 * 50 / 100 : ℚ) ≤ 255 :=
  hsv_adjust_range_spec.2.1 100 50 (by decide) (by decide) (by decide)

/-- C5: the exported pixel grid has width equal to the maximum row length
(0 when there are no rows) and height equal to the number of rows, is
flattened row-major in append order, and its cell `(x, y)` is element `x`
of row `y` when `x` is within that row and canonical black `(0,0,0)`
otherwise. -/
theorem save_pixels_spec (rows : List (List Color)) :
    (save_pixels rows).length = gridWidth rows * rows.length ∧
    (∀ row ∈ rows, row.length ≤ gridWidth rows) ∧
    (rows = [] → gridWidth rows = 0) ∧
    (rows ≠ [] → ∃ row ∈ rows, gridWidth rows = row.length) ∧
    (∀ x y : ℕ, x < gridWidth rows → y < rows.length →
      (save_pixels rows).getD (y * gridWidth rows + x) black =
        (rows.getD y []).getD x black) := by
  refine ⟨pixelsWithWidth_length _ _,
    fun row h => length_le_foldl_max _ _ _ h, ?_, ?_, ?_⟩
  · rintro rfl; rfl
  · intro hne
    rcases foldl_max_cases rows 0 with h | ⟨row, hm, he⟩
    · cases rows with
      | nil => exact absurd rfl hne
      | cons r rs =>
          refine ⟨r, List.mem_cons_self _ _, ?_⟩
          have h1 : r.length ≤ gridWidth (r :: rs) :=
            length_le_foldl_max _ 0 _ (List.mem_cons_self _ _)
          unfold gridWidth at *
          omega
    · exact ⟨row, hm, he⟩
  · intro x y hx _
    exact pixelsWithWidth_getD _ _ _ _ hx

theorem save_pixels_spec_witness :
    (save_pixels [[black, black],
        [black, black, black, black, black],
        [black, black, black]]).getD
      (0 * gridWidth [[black, black],
        [black, black, black, black, black],
        [black, black, black]] + 3) black =
    (([[black, black],
        [black, black, black, black, black],
        [black, black, black]] : List (List Color)).getD 0 []).getD 3 black :=
  (save_pixels_spec _).2.2.2.2 3 0 (by decide) (by decide)

/-- C8: `save_as_image` does not modify the palette state, so a second
call with no intervening appends computes the identical grid size and the
identical pixel sequence to hand to the image writer. -/
theorem save_as_image_pure (p : PixelPalette) :
    p.save_as_image.2 = p ∧
    (p.save_as_image.2).save_as_image.1 = p.save_as_image.1 ∧
    p.save_as_image.1.2 = save_pixels p.rows :=
  ⟨rfl, rfl, rfl⟩

/-- C10: construction performs no validation of the range — any triple,
including one with a zero or negative channel, is stored as given with an
empty row list; a zero range channel makes the first later `add_gradient`
or `add_shades` call fail with a `ZeroDivisionError` inside the
conversion, never the construction itself. -/
theorem init_no_validation :
    (∀ r : ℚ × ℚ × ℚ,
      (PixelPalette.init r).hsv_range = r ∧ (PixelPalette.init r).rows = []) ∧
    (∀ c1 c2 : ℚ × ℚ × ℚ, ∀ n : ℤ, ∀ asc : Bool,
      (PixelPalette.init (0, 100, 100)).add_gradientE c1 c2 n asc =
        .error .zeroDivisionError) ∧
    (∀ bc s : ℚ × ℚ × ℚ, ∀ d u : ℤ,
      (PixelPalette.init (0, 100, 100)).add_shadesE bc s d u =
        .error .zeroDivisionError) := by
  refine ⟨fun r => ⟨rfl, rfl⟩, ?_, ?_⟩
  · intro c1 c2 n asc
    simp [PixelPalette.add_gradientE, hsv_adjust_rangeE, PixelPalette.init]
  · intro bc s d u
    simp [PixelPalette.add_shadesE, hsv_adjust_rangeE, PixelPalette.init]

/-- C1 counterexample: with range `(100,100,100)` both endpoints of
`add_gradient((100,0,0),(100,0,0),1,True)` have canonical hue 255; the
interior element the code stores is `(0,0,0)`, while the claimed
componentwise `round(c1*(1-t) + c2*t)` value is `(255,0,0)`. -/
theorem add_gradient_formula_counterexample :
    ((PixelPalette.init (100, 100, 100)).add_gradient (100, 0, 0)
        (100, 0, 0) 1 true).rows = [[(255, 0, 0), (0, 0, 0), (255, 0, 0)]] ∧
    hsv_adjust_range (100, 0, 0) (100, 100, 100) = (255, 0, 0) ∧
    (pyRound (mix ((255 : ℤ) : ℚ) ((255 : ℤ) : ℚ) ((0 + 1) / (1 + 1))),
     pyRound (mix ((0 : ℤ) : ℚ) ((0 : ℤ) : ℚ) ((0 + 1) / (1 + 1))),
     pyRound (mix ((0 : ℤ) : ℚ) ((0 : ℤ) : ℚ) ((0 + 1) / (1 + 1)))) =
      ((255 : ℤ), (0 : ℤ), (0 : ℤ)) ∧
    ((0 : ℤ), (0 : ℤ), (0 : ℤ)) ≠ ((255 : ℤ), (0 : ℤ), (0 : ℤ)) := by
  refine ⟨?_, ?_, ?_, by decide⟩
  · norm_num [PixelPalette.add_gradient, PixelPalette.init, gradient_row,
      hsv_adjust_range, mix_colors, mix, pyRound, List.range_succ,
      show ((1 : ℤ).toNat = 1) from rfl]
  · norm_num [hsv_adjust_range, pyRound]
  · norm_num [mix, pyRound]

/-- C1 amended: for every palette, pair of external colors and steps
`n ≥ 0`, `add_gradient(c1, c2, n, True)` appends exactly one row of length
`n + 2` whose first element is `canonical(c1)`, whose last element is
`canonical(c2)`, and whose interior element at position `i` is the
componentwise `round(c1*(1-t) + c2*t)` with `t = (i+1)/(n+1)`, except that
the hue channel is additionally reduced modulo 255; saturation and value
are not reduced; `n = 0` yields exactly the two-element row. -/
theorem add_gradient_spec (p : PixelPalette) (color1 color2 : ℚ × ℚ × ℚ)
    (n : ℤ) (hn : 0 ≤ n) :
    let a := hsv_adjust_range color1 p.hsv_range
    let b := hsv_adjust_range color2 p.hsv_range
    let row := gradient_row a b n true
    (p.add_gradient color1 color2 n true).rows = p.rows ++ [row] ∧
    (row.length : ℤ) = n + 2 ∧
    row.getD 0 black = a ∧
    row.getD (n.toNat + 1) black = b ∧
    (∀ i : ℕ, (i : ℤ) < n →
      row.getD (i + 1) black =
        (pyRound (mix (a.1 : ℚ) (b.1 : ℚ) (((i : ℚ) + 1) / ((n : ℚ) + 1)))
          % 255,
         pyRound (mix (a.2.1 : ℚ) (b.2.1 : ℚ) (((i : ℚ) + 1) / ((n : ℚ) + 1))),
         pyRound (mix (a.2.2 : ℚ) (b.2.2 : ℚ)
          (((i : ℚ) + 1) / ((n : ℚ) + 1))))) ∧
    (n = 0 → row = [a, b]) := by
  intro a b row
  refine ⟨add_gradient_rows p color1 color2 n true, ?_,
    gradient_row_getD_zero a b n true, gradient_row_getD_last a b n true,
    ?_, ?_⟩
  · rw [gradient_row_length]; omega
  · intro i hi
    rw [gradient_row_getD_interior a b n true i (by omega)]
    simp [mix_colors]
  · rintro rfl
    show gradient_row a b 0 true = [a, b]
    simp [gradient_row, show ((0 : ℤ).toNat = 0) from rfl]

theorem add_gradient_spec_witness :
    ((PixelPalette.init (100, 100, 100)).add_gradient (0, 0, 0)
        (0, 0, 0) 0 true).rows = (PixelPalette.init (100, 100, 100)).rows ++
      [gradient_row (hsv_adjust_range (0, 0, 0) (100, 100, 100))
        (hsv_adjust_range (0, 0, 0) (100, 100, 100)) 0 true] :=
  (add_gradient_spec (PixelPalette.init (100, 100, 100)) (0, 0, 0)
    (0, 0, 0) 0 (by decide)).1

/-- C9: the modulo-255 reduction of the hue is applied to every interior
gradient color regardless of `hue_ascending`; in particular, with
`hue_ascending = True` and both canonical hues 255, the interior mix
rounds to exactly 255 but is stored as 0. -/
theorem interior_hue_mod_spec :
    (∀ p : PixelPalette, ∀ c1 c2 : ℚ × ℚ × ℚ, ∀ n : ℤ, ∀ asc : Bool,
      ∀ i : ℕ, i < n.toNat →
      ((p.add_gradient c1 c2 n asc).rows.getD p.rows.length []).getD (i + 1)
          black =
        (let a := hsv_adjust_range c1 p.hsv_range
         let b := hsv_adjust_range c2 p.hsv_range
         let a' := if asc then a else (a.1 + 255, a.2.1, a.2.2)
         let c := mix_colors a' b (((i : ℚ) + 1) / ((n : ℚ) + 1))
         (c.1 % 255, c.2.1, c.2.2))) ∧
    (((PixelPalette.init (100, 100, 100)).add_gradient (100, 0, 0)
        (100, 0, 0) 1 true).rows.getD 0 []).getD 1 black = (0, 0, 0) ∧
    pyRound (mix ((255 : ℤ) : ℚ) ((255 : ℤ) : ℚ) ((0 + 1) / (1 + 1))) =
      255 := by
  refine ⟨?_, ?_, ?_⟩
  · intro p c1 c2 n asc i hi
    rw [add_gradient_rows, getD_append_self]
    exact gradient_row_getD_interior _ _ n asc i hi
  · norm_num [PixelPalette.add_gradient, PixelPalette.init, gradient_row,
      hsv_adjust_range, mix_colors, mix, pyRound, List.range_succ,
      show ((1 : ℤ).toNat = 1) from rfl]
  · norm_num [mix, pyRound]

theorem interior_hue_mod_spec_witness :
    (((PixelPalette.init (100, 100, 100)).add_gradient (0, 0, 0)
        (50, 0, 0) 1 false).rows.getD
        (PixelPalette.init (100, 100, 100)).rows.length []).getD (0 + 1)
        black =
      (let a := hsv_adjust_range (0, 0, 0) (100, 100, 100)
       let b := hsv_adjust_range (50, 0, 0) (100, 100, 100)
       let a' := if false then a else (a.1 + 255, a.2.1, a.2.2)
       let c := mix_colors a' b (((0 : ℚ) + 1) / ((1 : ℚ) + 1))
       (c.1 % 255, c.2.1, c.2.2)) :=
  interior_hue_mod_spec.1 (PixelPalette.init (100, 100, 100)) (0, 0, 0)
    (50, 0, 0) 1 false 0 (by decide)

/-- C2 counterexample: the endpoint hues are NOT reduced modulo 255 — with
range `(100,100,100)` and `hue_ascending = False`, the appended second
endpoint of `add_gradient((10,20,30),(100,0,0),0,False)` keeps canonical
hue 255 (reduction would store 0).  Moreover the claimed short-arc
consequence fails: for `(350,50,50) → (10,50,50)` with 3 steps in a
`(360,100,100)` palette the interior hues are 124, 0, 131, and 124 lies in
the long arc through 128, not the short arc through 0. -/
theorem hue_descending_counterexample :
    ((PixelPalette.init (100, 100, 100)).add_gradient (10, 20, 30)
        (100, 0, 0) 0 false).rows = [[(26, 51, 76), (255, 0, 0)]] ∧
    (255 : ℤ) % 255 = 0 ∧ (255 : ℤ) ≠ 0 ∧
    ((PixelPalette.init (360, 100, 100)).add_gradient (350, 50, 50)
        (10, 50, 50) 3 false).rows =
      [[(248, 128, 128), (124, 128, 128), (0, 128, 128), (131, 128, 128),
        (7, 128, 128)]] ∧
    ¬ (248 ≤ (124 : ℤ) ∨ (124 : ℤ) ≤ 7) := by
  refine ⟨?_, by decide, by decide, ?_, by decide⟩
  · norm_num [PixelPalette.add_gradient, PixelPalette.init, gradient_row,
      hsv_adjust_range, mix_colors, mix, pyRound, List.range_succ,
      show ((0 : ℤ).toNat = 0) from rfl]
  · norm_num [PixelPalette.add_gradient, PixelPalette.init, gradient_row,
      hsv_adjust_range, mix_colors, mix, pyRound, List.range_succ,
      show ((3 : ℤ).toNat = 3) from rfl]

/-- C2 amended: with `hue_ascending = False` the hue of `canonical(color1)`
is increased by 255 (the canonical wheel period) before interpolating, and
every interpolated hue is reduced modulo 255; the two endpoint entries of
the appended row, however, are stored as `canonical(color1)` and
`canonical(color2)` without reduction.  For the endpoints
`(350,50,50), (10,50,50)` in a `(360,100,100)` palette with 3 steps the
interior hues are 124, 0, 131. -/
theorem hue_descending_spec (p : PixelPalette) (color1 color2 : ℚ × ℚ × ℚ)
    (n : ℤ) (hn : 0 ≤ n) :
    let a := hsv_adjust_range color1 p.hsv_range
    let b := hsv_adjust_range color2 p.hsv_range
    let row := gradient_row a b n false
    (p.add_gradient color1 color2 n false).rows = p.rows ++ [row] ∧
    row.getD 0 black = a ∧
    row.getD (n.toNat + 1) black = b ∧
    (∀ i : ℕ, (i : ℤ) < n →
      row.getD (i + 1) black =
        (pyRound (mix ((a.1 + 255 : ℤ) : ℚ) (b.1 : ℚ)
            (((i : ℚ) + 1) / ((n : ℚ) + 1))) % 255,
         pyRound (mix (a.2.1 : ℚ) (b.2.1 : ℚ) (((i : ℚ) + 1) / ((n : ℚ) + 1))),
         pyRound (mix (a.2.2 : ℚ) (b.2.2 : ℚ)
          (((i : ℚ) + 1) / ((n : ℚ) + 1))))) ∧
    ((PixelPalette.init (360, 100, 100)).add_gradient (350, 50, 50)
        (10, 50, 50) 3 false).rows =
      [[(248, 128, 128), (124, 128, 128), (0, 128, 128), (131, 128, 128),
        (7, 128, 128)]] := by
  intro a b row
  refine ⟨add_gradient_rows p color1 color2 n false,
    gradient_row_getD_zero a b n false, gradient_row_getD_last a b n false,
    ?_, ?_⟩
  · intro i hi
    rw [gradient_row_getD_interior a b n false i (by omega)]
    simp [mix_colors]
  · norm_num [PixelPalette.add_gradient, PixelPalette.init, gradient_row,
      hsv_adjust_range, mix_colors, mix, pyRound, List.range_succ,
      show ((3 : ℤ).toNat = 3) from rfl]

theorem hue_descending_spec_witness :
    (gradient_row (hsv_adjust_range (0, 0, 0) (100, 100, 100))
        (hsv_adjust_range (50, 0, 0) (100, 100, 100)) 0 false).getD 0 black =
      hsv_adjust_range (0, 0, 0) (100, 100, 100) :=
  (hue_descending_spec (PixelPalette.init (100, 100, 100)) (0, 0, 0)
    (50, 0, 0) 0 (by decide)).2.1

/-- C7 counterexample: a negative `steps` or a negative `number_down` does
NOT fail with an `InvalidArgumentError` — the call returns normally and
appends a row: `add_gradient` with `steps = -1` appends the two-endpoint
row, and `add_shades` with `number_down = -2, number_up = 0` appends an
empty row. -/
theorem add_negative_counts_counterexample :
    (PixelPalette.init (100, 100, 100)).add_gradientE (50, 50, 50)
        (0, 0, 0) (-1) true =
      .ok { hsv_range := (100, 100, 100),
            rows := [[(128, 128, 128), (0, 0, 0)]] } ∧
    (PixelPalette.init (100, 100, 100)).add_shadesE (50, 50, 50)
        (50, 50, 50) (-2) 0 =
      .ok { hsv_range := (100, 100, 100), rows := [[]] } := by
  constructor
  · norm_num [PixelPalette.add_gradientE, hsv_adjust_rangeE,
      PixelPalette.init, gradient_row, hsv_adjust_range, pyRound,
      show (((-1) : ℤ).toNat = 0) from rfl]
  · norm_num [PixelPalette.add_shadesE, hsv_adjust_rangeE,
      PixelPalette.init, shades_row, pyRange, hsv_adjust_range, pyRound,
      show ((0 - 2 : ℤ).toNat = 0) from rfl]

/-- C7 amended: `add_gradient` with negative `steps` raises nothing and
appends the two-endpoint row `[canonical(c1), canonical(c2)]`;
`add_shades` with counts making `d + u + 1 ≤ 0` raises nothing and appends
an empty row; and a call that does raise (a zero range channel in the
conversion) produces no updated palette at all — `rows` is unchanged,
because `self.rows.append` is the method's final statement. -/
theorem add_negative_counts_spec (p : PixelPalette) (c1 c2 : ℚ × ℚ × ℚ)
    (asc : Bool) (n d u : ℤ) (h1 : p.hsv_range.1 ≠ 0)
    (h2 : p.hsv_range.2.1 ≠ 0) (h3 : p.hsv_range.2.2 ≠ 0) :
    (n < 0 → p.add_gradientE c1 c2 n asc = .ok { p with rows := p.rows ++
        [[hsv_adjust_range c1 p.hsv_range,
          hsv_adjust_range c2 p.hsv_range]] }) ∧
    (d + u + 1 ≤ 0 → p.add_shadesE c1 c2 d u =
      .ok { p with rows := p.rows ++ [[]] }) ∧
    (∀ q : PixelPalette, ∀ b1 b2 : ℚ × ℚ × ℚ, ∀ m : ℤ, ∀ asc' : Bool,
      q.hsv_range.1 = 0 →
        q.add_gradientE b1 b2 m asc' = .error .zeroDivisionError) := by
  refine ⟨?_, ?_, ?_⟩
  · intro hn
    have ht : n.toNat = 0 := by omega
    simp [PixelPalette.add_gradientE, hsv_adjust_rangeE, h1, h2, h3,
      gradient_row, ht]
  · intro hdu
    have ht : (u + 1 - -d).toNat = 0 := by omega
    simp [PixelPalette.add_shadesE, hsv_adjust_rangeE, h1, h2, h3,
      shades_row, pyRange, ht]
    omega
  · intro q b1 b2 m asc' hq
    simp [PixelPalette.add_gradientE, hsv_adjust_rangeE, hq]

theorem add_negative_counts_spec_witness :
    (PixelPalette.init (100, 100, 100)).add_gradientE (50, 50, 50)
        (0, 0, 0) (-1) true =
      .ok { PixelPalette.init (100, 100, 100) with
            rows := (PixelPalette.init (100, 100, 100)).rows ++
              [[hsv_adjust_range (50, 50, 50) (100, 100, 100),
                hsv_adjust_range (0, 0, 0) (100, 100, 100)]] } :=
  (add_negative_counts_spec (PixelPalette.init (100, 100, 100)) (50, 50, 50)
    (0, 0, 0) true (-1) 0 0 (by decide) (by decide) (by decide)).1
    (by decide)

/-! ### Monotonicity of the non-hue channels along a gradient row -/

theorem mix_mono_of_le {a b : ℚ} (hab : a ≤ b) {t t' : ℚ} (h : t ≤ t') :
    mix a b t ≤ mix a b t' := by
  unfold mix; nlinarith

theorem left_le_mix {a b t : ℚ} (hab : a ≤ b) (h0 : 0 ≤ t) :
    a ≤ mix a b t := by
  unfold mix; nlinarith

theorem mix_le_right {a b t : ℚ} (hab : a ≤ b) (h1 : t ≤ 1) :
    mix a b t ≤ b := by
  unfold mix; nlinarith

theorem mix_anti_of_ge {a b : ℚ} (hba : b ≤ a) {t t' : ℚ} (h : t ≤ t') :
    mix a b t' ≤ mix a b t := by
  unfold mix; nlinarith

theorem mix_le_left {a b t : ℚ} (hba : b ≤ a) (h0 : 0 ≤ t) :
    mix a b t ≤ a := by
  unfold mix; nlinarith

theorem right_le_mix {a b t : ℚ} (hba : b ≤ a) (h1 : t ≤ 1) :
    b ≤ mix a b t := by
  unfold mix; nlinarith

theorem chan_gradient_interior (a b : Color) (m ch : ℕ)
    (hch : ch = 1 ∨ ch = 2) (i : ℕ) (hi : i < m) :
    chan ch ((gradient_row a b (m : ℤ) true).getD (i + 1) black) =
      pyRound (mix ((chan ch a : ℤ) : ℚ) ((chan ch b : ℤ) : ℚ)
        (((i : ℚ) + 1) / ((m : ℚ) + 1))) := by
  rw [gradient_row_getD_interior a b (m : ℤ) true i (by simpa using hi)]
  rcases hch with rfl | rfl <;> simp [chan, mix_colors, Int.cast_natCast]

theorem chan_gradient_last (a b : Color) (m : ℕ) (ch : ℕ) :
    chan ch ((gradient_row a b (m : ℤ) true).getD (m + 1) black) =
      chan ch b := by
  have h := gradient_row_getD_last a b (m : ℤ) true
  rw [Int.toNat_natCast] at h
  rw [h]

theorem gradient_chain_mono (a b : Color) (m ch : ℕ)
    (hch : ch = 1 ∨ ch = 2) (hab : chan ch a ≤ chan ch b) (j : ℕ)
    (hj : j + 1 < m + 2) :
    chan ch ((gradient_row a b (m : ℤ) true).getD j black) ≤
      chan ch ((gradient_row a b (m : ℤ) true).getD (j + 1) black) := by
  have hmq : (0 : ℚ) < (m : ℚ) + 1 := by positivity
  have habq : ((chan ch a : ℤ) : ℚ) ≤ ((chan ch b : ℤ) : ℚ) := by
    exact_mod_cast hab
  cases j with
  | zero =>
      rw [gradient_row_getD_zero]
      rcases Nat.eq_zero_or_pos m with rfl | hm0
      · have h := chan_gradient_last a b 0 ch
        rw [show (0 : ℕ) + 1 = 0 + 1 from rfl] at h
        rw [h]
        exact hab
      · rw [chan_gradient_interior a b m ch hch 0 hm0]
        have h1 : ((chan ch a : ℤ) : ℚ) ≤
            mix ((chan ch a : ℤ) : ℚ) ((chan ch b : ℤ) : ℚ)
              (((0 : ℚ) + 1) / ((m : ℚ) + 1)) :=
          left_le_mix habq (by positivity)
        calc chan ch a = pyRound ((chan ch a : ℤ) : ℚ) :=
              (pyRound_intCast _).symm
          _ ≤ _ := pyRound_mono h1
  | succ i =>
      have hi : i < m := by omega
      rw [chan_gradient_interior a b m ch hch i hi]
      rcases Nat.lt_or_ge (i + 1) m with h | h
      · rw [chan_gradient_interior a b m ch hch (i + 1) h]
        apply pyRound_mono
        apply mix_mono_of_le habq
        rw [div_le_div_iff_of_pos_right hmq]
        push_cast
        linarith
      · have hieq : i + 1 = m := by omega
        rw [show i + 1 + 1 = m + 1 by omega, chan_gradient_last a b m ch]
        calc pyRound (mix ((chan ch a : ℤ) : ℚ) ((chan ch b : ℤ) : ℚ)
              (((i : ℚ) + 1) / ((m : ℚ) + 1)))
            ≤ pyRound ((chan ch b : ℤ) : ℚ) := by
              apply pyRound_mono
              apply mix_le_right habq
              rw [div_le_one hmq]
              have : (i : ℚ) + 1 ≤ (m : ℚ) := by exact_mod_cast hi
              linarith
          _ = chan ch b := pyRound_intCast _

theorem gradient_chain_anti (a b : Color) (m ch : ℕ)
    (hch : ch = 1 ∨ ch = 2) (hba : chan ch b ≤ chan ch a) (j : ℕ)
    (hj : j + 1 < m + 2) :
    chan ch ((gradient_row a b (m : ℤ) true).getD (j + 1) black) ≤
      chan ch ((gradient_row a b (m : ℤ) true).getD j black) := by
  have hmq : (0 : ℚ) < (m : ℚ) + 1 := by positivity
  have hbaq : ((chan ch b : ℤ) : ℚ) ≤ ((chan ch a : ℤ) : ℚ) := by
    exact_mod_cast hba
  cases j with
  | zero =>
      rw [gradient_row_getD_zero]
      rcases Nat.eq_zero_or_pos m with rfl | hm0
      · have h := chan_gradient_last a b 0 ch
        rw [show (0 : ℕ) + 1 = 0 + 1 from rfl] at h
        rw [h]
        exact hba
      · rw [chan_gradient_interior a b m ch hch 0 hm0]
        have h1 : mix ((chan ch a : ℤ) : ℚ) ((chan ch b : ℤ) : ℚ)
              (((0 : ℚ) + 1) / ((m : ℚ) + 1)) ≤ ((chan ch a : ℤ) : ℚ) :=
          mix_le_left hbaq (by positivity)
        calc pyRound (mix ((chan ch a : ℤ) : ℚ) ((chan ch b : ℤ) : ℚ)
              (((0 : ℚ) + 1) / ((m : ℚ) + 1)))
            ≤ pyRound ((chan ch a : ℤ) : ℚ) := pyRound_mono h1
          _ = chan ch a := pyRound_intCast _
  | succ i =>
      have hi : i < m := by omega
      rw [chan_gradient_interior a b m ch hch i hi]
      rcases Nat.lt_or_ge (i + 1) m with h | h
      · rw [chan_gradient_interior a b m ch hch (i + 1) h]
        apply pyRound_mono
        apply mix_anti_of_ge hbaq
        rw [div_le_div_iff_of_pos_right hmq]
        push_cast
        linarith
      · have hieq : i + 1 = m := by omega
        rw [show i + 1 + 1 = m + 1 by omega, chan_gradient_last a b m ch]
        calc chan ch b = pyRound ((chan ch b : ℤ) : ℚ) :=
              (pyRound_intCast _).symm
          _ ≤ pyRound (mix ((chan ch a : ℤ) : ℚ) ((chan ch b : ℤ) : ℚ)
              (((i : ℚ) + 1) / ((m : ℚ) + 1))) := by
              apply pyRound_mono
              apply right_le_mix hbaq
              rw [div_le_one hmq]
              have : (i : ℚ) + 1 ≤ (m : ℚ) := by exact_mod_cast hi
              linarith

/-- C6: in the row appended by `add_gradient(c1, c2, n, True)`, each of
the saturation (channel 1) and value (channel 2) components is
non-strictly monotone between the endpoints: non-decreasing along the row
when `canonical(c1)`'s channel is at most `canonical(c2)`'s, and
non-increasing in the opposite ordering. -/
theorem gradient_sv_monotone (p : PixelPalette) (color1 color2 : ℚ × ℚ × ℚ)
    (n : ℤ) (hn : 0 ≤ n) (ch : ℕ) (hch : ch = 1 ∨ ch = 2) :
    (chan ch (hsv_adjust_range color1 p.hsv_range) ≤
        chan ch (hsv_adjust_range color2 p.hsv_range) →
      ∀ j : ℕ, j + 1 < ((p.add_gradient color1 color2 n true).rows.getD
          p.rows.length []).length →
        chan ch (((p.add_gradient color1 color2 n true).rows.getD
            p.rows.length []).getD j black) ≤
          chan ch (((p.add_gradient color1 color2 n true).rows.getD
            p.rows.length []).getD (j + 1) black)) ∧
    (chan ch (hsv_adjust_range color2 p.hsv_range) ≤
        chan ch (hsv_adjust_range color1 p.hsv_range) →
      ∀ j : ℕ, j + 1 < ((p.add_gradient color1 color2 n true).rows.getD
          p.rows.length []).length →
        chan ch (((p.add_gradient color1 color2 n true).rows.getD
            p.rows.length []).getD (j + 1) black) ≤
          chan ch (((p.add_gradient color1 color2 n true).rows.getD
            p.rows.length []).getD j black)) := by
  have hrow : (p.add_gradient color1 color2 n true).rows.getD
      p.rows.length [] = gradient_row (hsv_adjust_range color1 p.hsv_range)
        (hsv_adjust_range color2 p.hsv_range) n true := by
    rw [add_gradient_rows, getD_append_self]
  rw [hrow, gradient_row_length]
  lift n to ℕ using hn with m
  constructor
  · intro hab j hj
    exact gradient_chain_mono _ _ m ch hch hab j (by omega)
  · intro hba j hj
    exact gradient_chain_anti _ _ m ch hch hba j (by omega)

theorem gradient_sv_monotone_witness :
    chan 1 ((gradient_row (hsv_adjust_range (30, 40, 50) (100, 100, 100))
        (hsv_adjust_range (30, 40, 50) (100, 100, 100)) 1 true).getD 0
        black) ≤
      chan 1 ((gradient_row (hsv_adjust_range (30, 40, 50) (100, 100, 100))
        (hsv_adjust_range (30, 40, 50) (100, 100, 100)) 1 true).getD (0 + 1)
        black) := by
  have h := (gradient_sv_monotone (PixelPalette.init (100, 100, 100))
    (30, 40, 50) (30, 40, 50) 1 (by decide) 1 (Or.inl rfl)).1 (le_refl _) 0
    (by simp [PixelPalette.add_gradient, PixelPalette.init,
      gradient_row_length])
  simpa [PixelPalette.add_gradient, PixelPalette.init] using h
